import Mathlib

/-!
Verification of the ai-music-producer generative core.

This file gives a shallow embedding, in Lean 4, of the composition and
rendering pipeline of the repository (beat generator, melody generator,
harmony suggester, song generator, audio processor, audio combiner), and
proves or refutes the specified properties of those components.

Modelling conventions:
* Python floats are modelled as rationals (`ℚ`); every constant appearing in
  the relevant code paths (0.1, 0.25, 0.3, 0.5, 0.7, 0.8, 0.9, ...) is a
  dyadic or decimal rational, and the arithmetic on the verified paths is
  exact, so this is faithful.
* `numpy` arrays are modelled as `List (List ℚ)` (row major) or `List ℚ`.
* Python's `random` draws are modelled by explicit oracle records passed to
  the generators: one function per call site, indexed by the loop position of
  the draw.  Universally quantified theorems hold for every oracle, i.e. for
  every possible random stream; refutations use one concrete oracle, i.e.
  one realizable stream.
* Python `str.replace`, `in`, `str.lower`, `str.startswith` are modelled by
  executable character-list functions (`pyReplace`, `pyContains`, `pyLower`,
  and `List.isPrefixOf` on `String.data`).
* Python `%` on ints matches Lean's `%` on `ℤ`/`ℕ`; `int()` truncation
  toward zero is `pyint`; `//` on nonnegative values is `Nat` division.
* Fallible operations (`1/0`, `np.zeros` of a negative size) are modelled
  with `Except String`.
-/

/-- One step of Python `str.replace`, on character lists, with explicit fuel
so that the definition is structural and kernel-reducible.  Replaces
non-overlapping occurrences left to right. -/
def replaceFuel (pat repl : List Char) : Nat → List Char → List Char
  | 0, s => s
  | _ + 1, [] => []
  | fuel + 1, c :: rest =>
    if pat ≠ [] && pat.isPrefixOf (c :: rest) then
      repl ++ replaceFuel pat repl fuel (rest.drop (pat.length - 1))
    else c :: replaceFuel pat repl fuel rest

/-- Python `s.replace(pat, repl)` for a non-empty pattern. -/
def pyReplace (s pat repl : String) : String :=
  ⟨replaceFuel pat.data repl.data s.data.length s.data⟩

/-- Python `pat in s` (substring containment), on character lists. -/
def containsL (pat : List Char) : List Char → Bool
  | [] => pat.isEmpty
  | c :: rest => pat.isPrefixOf (c :: rest) || containsL pat rest

/-- Python `pat in s` (substring containment). -/
def pyContains (s pat : String) : Bool := containsL pat.data s.data

/-- ASCII lower-casing of one character (sufficient for the roman-numeral
and genre strings used by the code). -/
def charLower (c : Char) : Char :=
  if 'A' ≤ c ∧ c ≤ 'Z' then Char.ofNat (c.toNat + 32) else c

/-- Python `s.lower()` for ASCII strings. -/
def pyLower (s : String) : String := ⟨s.data.map charLower⟩

/-- Python `s.startswith(pre)`. -/
def pyStartsWith (s pre : String) : Bool := pre.data.isPrefixOf s.data

/-- Python `int(q)`: truncation toward zero. -/
def pyint (q : ℚ) : ℤ := Int.tdiv q.num q.den

/-- Python `1.0 / n` on an integer count: raises `ZeroDivisionError` when the
count is zero. -/
def pydivByNat (a : ℚ) (n : Nat) : Except String ℚ :=
  if n = 0 then .error "ZeroDivisionError" else .ok (a / n)

/-- First element of `l` minimizing `|x - t|` (Python
`min(l, key=lambda x: abs(x - t))`); `t` itself for an empty list (Python
would raise there; the code only calls it on non-empty lists). -/
def argminAbs (t : ℤ) : List ℤ → ℤ
  | [] => t
  | h :: tl => tl.foldl (fun best x => if |x - t| < |best - t| then x else best) h

/-- Stable insertion of `x` into `l`: `x` goes before the first element `y`
with `lt y x`, i.e. after every earlier element that compares `≥` to it. -/
def insertStable {α : Type} (lt : α → α → Bool) (x : α) : List α → List α
  | [] => [x]
  | y :: ys => if lt y x then x :: y :: ys else y :: insertStable lt x ys

/-- Stable sort placing elements so that `lt y x = false` for consecutive
`x` then `y`; models Python's stable `list.sort`. -/
def sortStable {α : Type} (lt : α → α → Bool) : List α → List α
  | [] => []
  | x :: xs => insertStable lt x (sortStable lt xs)

/-- Maximum of `|x|` over a list, starting from 0 (equals
`np.max(np.abs(l))` for a non-empty list). -/
def listPeak (l : List ℚ) : ℚ := l.foldl (fun acc x => max acc |x|) 0

/-- Either-error test for `Except`. -/
def isErr {ε α : Type} : Except ε α → Bool
  | .error _ => true
  | .ok _ => false

/-- The optional reference-analysis record handed to the generators
(`{tempo, genre, energy, time_signature, mood}` keys of the analysis dict;
a missing key is `none`). -/
structure Reference where
  tempo : Option ℚ
  genre : Option String
  energy : Option ℚ
  time_signature : Option String
  mood : Option String
deriving DecidableEq

namespace BeatGenerator

/-- Randomness oracle for `generate`: `flip i j` is the `np.random.random()`
draw for cell `(i, j)` of the variation loop, `ghost j` the draw for the
ghost-note loop at step `j`. -/
structure Rand where
  flip : Nat → Nat → ℚ
  ghost : Nat → ℚ

/-- `BeatGenerator.genre_patterns`: per-genre 16-step templates, keyed by
drum name, exactly as in `beat_generator.py`. -/
def genre_patterns : String → Option (List (String × List ℚ))
  | "hip-hop" => some
      [("kick",         [1,0,0,0,1,0,0,0,1,0,0,0,1,0,0,0]),
       ("snare",        [0,0,0,0,1,0,0,0,0,0,0,0,1,0,0,0]),
       ("hihat_closed", [1,0,1,0,1,0,1,0,1,0,1,0,1,0,1,0])]
  | "rock" => some
      [("kick",         [1,0,0,0,1,0,0,0,1,0,0,0,1,0,0,0]),
       ("snare",        [0,0,1,0,0,0,1,0,0,0,1,0,0,0,1,0]),
       ("hihat_closed", [1,1,1,1,1,1,1,1,1,1,1,1,1,1,1,1])]
  | "jazz" => some
      [("kick",  [1,0,0,1,0,0,1,0,0,1,0,0,1,0,0,0]),
       ("snare", [0,0,1,0,0,1,0,0,1,0,0,1,0,0,1,0]),
       ("ride",  [1,0,1,1,0,1,1,0,1,1,0,1,1,0,1,0])]
  | "electronic" => some
      [("kick",         [1,0,0,0,1,0,0,0,1,0,0,0,1,0,0,0]),
       ("snare",        [0,0,0,0,1,0,0,0,0,0,0,0,1,0,0,0]),
       ("hihat_closed", [0,0,1,0,0,0,1,0,0,0,1,0,0,0,1,0])]
  | _ => none

/-- `drum_mapping` values in index order. -/
def drumNames : List String :=
  ["kick", "snare", "hihat_closed", "hihat_open", "crash", "ride",
   "tom_high", "tom_mid", "tom_low"]

/-- Cell `(i, j)` of the tiled genre-template grid: the 16-step pattern for
the drum at row `i` repeated across the bars (the template length is 16, the
steps-per-bar, so tiling is exactly `j % 16`), 0 for an unlisted drum. -/
def templateCell (pats : List (String × List ℚ)) (i j : Nat) : ℚ :=
  match pats.lookup (drumNames.getD i "") with
  | some p => p.getD (j % 16) 0
  | none => 0

/-- The kick pattern chosen by `_generate_with_nn` from the reference. -/
def nnKick (reference : Option Reference) : List ℚ :=
  match reference with
  | some ref =>
    if ref.genre = some "electronic" then [1,0,0,0,1,0,0,0,1,0,0,0,1,0,0,0]
    else if ref.genre = some "jazz" then [1,0,0,1,0,0,1,0,0,1,0,0,1,0,0,0]
    else [1,0,0,0,1,0,0,0,1,0,0,0,1,0,0,0]
  | none => [1,0,0,0,1,0,0,0,1,0,0,0,1,0,0,0]

/-- Cell `(i, j)` of the `_generate_with_nn` base grid (length a multiple of
16 as always passed by `generate`): kick from `nnKick`, snare on steps 4 and
12 of each bar, hi-hats at 0.7 on even steps, all other rows silent. -/
def nnCell (reference : Option Reference) (i j : Nat) : ℚ :=
  if i = 0 then (nnKick reference).getD (j % 16) 0
  else if i = 1 then (if j % 16 = 4 ∨ j % 16 = 12 then 1 else 0)
  else if i = 2 then (if j % 16 % 2 = 0 then 7/10 else 0)
  else 0

/-- The variation probability of `_add_variations`: `complexity * 0.3`,
rescaled by the reference time signature and mood. -/
def variationProb (complexity : ℚ) (reference : Option Reference) : ℚ :=
  let p := complexity * (3/10)
  match reference with
  | none => p
  | some ref =>
    let p :=
      if ref.time_signature.getD "4/4" = "3/4" then p * (7/10)
      else if ref.time_signature.getD "4/4" = "6/8" then p * (12/10)
      else p
    if ref.mood.getD "neutral" = "energetic" ∨ ref.mood.getD "neutral" = "happy" then
      p * (13/10)
    else if ref.mood.getD "neutral" = "sad" ∨ ref.mood.getD "neutral" = "calm" then
      p * (7/10)
    else p

/-- Cell `(i, j)` after `_add_variations` on a grid with `cols` columns whose
original cell values are `base i j`: a random bit-flip (protected kick steps
0 and 8 of each bar excepted), then the snare fill at steps 60–63 when the
grid has at least 64 steps, then 0.5 ghost notes on random odd hi-hat steps
when complexity exceeds 0.7.  Each mutation of the Python loop writes only
the cell it reads, so the array update is this per-cell function. -/
def variedCell (complexity : ℚ) (reference : Option Reference) (r : Rand)
    (cols : Nat) (base : Nat → Nat → ℚ) (i j : Nat) : ℚ :=
  let v1 :=
    if r.flip i j < variationProb complexity reference * (1/10) ∧
        ¬(i = 0 ∧ (j % 16 = 0 ∨ j % 16 = 8)) then
      1 - base i j
    else base i j
  let v2 := if 64 ≤ cols ∧ i = 1 ∧ 60 ≤ j ∧ j < 64 then 1 else v1
  if complexity > 7/10 ∧ i = 2 ∧ j % 2 = 1 ∧ r.ghost j < 3/10 then 1/2 else v2

/-- Materialize a `rows × cols` grid from a cell function. -/
def mkGrid (rows cols : Nat) (f : Nat → Nat → ℚ) : List (List ℚ) :=
  (List.range rows).map fun i => (List.range cols).map fun j => f i j

/-- The genre override of `generate`: a reference genre replaces the
requested one when its lower-cased form is a known template key. -/
def adjustedGenre (genre : String) (reference : Option Reference) : String :=
  match reference with
  | some ref =>
    match ref.genre with
    | some g => if (genre_patterns (pyLower g)).isSome then pyLower g else genre
    | none => genre
  | none => genre

/-- The complexity override of `generate`:
`min(complexity * (1 + energy), 1.0)` when the reference carries energy. -/
def adjustedComplexity (complexity : ℚ) (reference : Option Reference) : ℚ :=
  match reference with
  | some ref =>
    match ref.energy with
    | some energy => min (complexity * (1 + energy)) 1
    | none => complexity
  | none => complexity

/-- `BeatGenerator.generate`: applies the reference overrides (tempo, known
lower-cased genre, energy-scaled complexity), then either tiles the genre
template or falls back to the algorithmic `_generate_with_nn` grid, and runs
`_add_variations` when the adjusted complexity exceeds 0.5.  `tempo` only
feeds the log line and the returned grid does not depend on it. -/
def generate (genre : String) (tempo : ℚ) (bars : Nat) (complexity : ℚ)
    (reference : Option Reference) (r : Rand) : List (List ℚ) :=
  let _ := tempo
  let g := adjustedGenre genre reference
  let c := adjustedComplexity complexity reference
  let totalSteps := 16 * bars
  match genre_patterns g with
  | some basePats =>
    if c > 1/2 then
      mkGrid 9 totalSteps (variedCell c reference r totalSteps (templateCell basePats))
    else
      mkGrid 9 totalSteps (templateCell basePats)
  | none =>
    if c > 1/2 then
      mkGrid 9 totalSteps (variedCell c reference r totalSteps (nnCell reference))
    else
      mkGrid 9 totalSteps (nnCell reference)

end BeatGenerator

namespace MelodyGenerator

/-- Randomness oracle for melody generation, one function per `random` call
site, indexed by the position of the draw: `moveP i` the step-vs-leap draw at
note `i`; `stepChoice i` selects from `[-1, 0, 1]` (as an index, modelling
`random.choices`); `leapDirPos i` the `random.choice([-1, 1])` draw;
`leapIdx i` selects from `[3, 4, 5, 8]`; `patIdx k` the
`random.choice(patterns)` draw of the `k`-th duration-assembly attempt. -/
structure MRand where
  moveP : Nat → ℚ
  stepChoice : Nat → Nat
  leapDirPos : Nat → Bool
  leapIdx : Nat → Nat
  patIdx : Nat → Nat

/-- `MelodyGenerator.note_to_midi`. -/
def note_to_midi : List (String × ℤ) :=
  [("C", 60), ("C#", 61), ("D", 62), ("D#", 63), ("E", 64), ("F", 65),
   ("F#", 66), ("G", 67), ("G#", 68), ("A", 69), ("A#", 70), ("B", 71)]

/-- `MelodyGenerator.scale_intervals`. -/
def scale_intervals : String → Option (List ℤ)
  | "major" => some [0, 2, 4, 5, 7, 9, 11]
  | "minor" => some [0, 2, 3, 5, 7, 8, 10]
  | "dorian" => some [0, 2, 3, 5, 7, 9, 10]
  | "phrygian" => some [0, 1, 3, 5, 7, 8, 10]
  | "lydian" => some [0, 2, 4, 6, 7, 9, 11]
  | "mixolydian" => some [0, 2, 4, 5, 7, 9, 10]
  | "aeolian" => some [0, 2, 3, 5, 7, 8, 10]
  | "locrian" => some [0, 1, 3, 5, 6, 8, 10]
  | _ => none

/-- The `"default"` entry of `MelodyGenerator.rhythm_patterns`. -/
def defaultRhythms : List (List ℚ) :=
  [[1/2, 1/2, 1/2, 1/2, 1/2, 1/2, 1/2, 1/2],
   [1, 1/2, 1/2, 1, 1/2, 1/2, 1],
   [1/4, 1/4, 1/2, 1, 1/2, 1/2, 1/2],
   [1, 1, 1/2, 1/2, 1, 1]]

/-- `MelodyGenerator.rhythm_patterns` for the genre keys. -/
def rhythm_patterns : String → Option (List (List ℚ))
  | "default" => some defaultRhythms
  | "jazz" => some
      [[3/4, 1/4, 1, 1/2, 1/2, 1],
       [1, 1/2, 1/4, 1/4, 1, 1/2, 1/2],
       [1/2, 1/2, 1/2, 1/2, 3/4, 1/4, 1]]
  | "electronic" => some
      [[1/4, 1/4, 1/4, 1/4, 1/2, 1/2, 1/2, 1/2],
       [1/2, 1/2, 1/2, 1/2, 1/4, 1/4, 1/4, 1/4],
       [1, 1/2, 1/2, 1/4, 1/4, 1/4, 1/4]]
  | "hip-hop" => some
      [[1/2, 1/2, 1, 1/2, 1/2, 1],
       [1/4, 1/4, 1/2, 1, 1/2, 1/2, 1/2],
       [1, 1/2, 1/2, 1/2, 1/2, 1]]
  | "rock" => some
      [[1/2, 1/2, 1/2, 1/2, 1/2, 1/2, 1/2, 1/2],
       [1, 1, 1/2, 1/2, 1, 1],
       [1/2, 1/2, 1, 1, 1/2, 1/2]]
  | _ => none

/-- The inner `for duration in pattern` loop of `_generate_durations`: emit
each duration that still fits before `total`; at the first one that does
not, emit the remaining gap when it exceeds 0.1 beats, jump to the bar
boundary and stop.  Returns (emitted durations, new current beat, whether
the boundary branch fired). -/
def consume (total : ℚ) : ℚ → List ℚ → (List ℚ × ℚ × Bool)
  | current, [] => ([], current, false)
  | current, d :: rest =>
    if current + d ≤ total then
      let r := consume total (current + d) rest
      (d :: r.1, r.2)
    else
      let rem := total - current
      (if rem > 1/10 then [rem] else [], total, true)

/-- The `while current_beat < total_beats and attempts < max_attempts` loop
of `_generate_durations`; `fuel` is the remaining attempt budget
(`max_attempts - attempts`).  Returns the accumulated durations and the
final `current_beat`. -/
def drawLoop (patterns : List (List ℚ)) (total : ℚ) (patIdx : Nat → Nat) :
    Nat → Nat → ℚ → (List ℚ × ℚ)
  | 0, _, current => ([], current)
  | fuel + 1, attempts, current =>
    if current < total then
      let pat := patterns.getD (patIdx attempts % patterns.length) []
      let r := consume total current pat
      let r' := drawLoop patterns total patIdx fuel (attempts + 1) r.2.1
      (r.1 ++ r'.1, r'.2)
    else ([], current)

/-- `MelodyGenerator._generate_durations`: sample genre-keyed rhythm
patterns (fallback `"default"`) for at most 20 attempts, then fall back to
uniform 0.5-beat eighth notes only when nothing at all was emitted. -/
def generate_durations (bars : Nat) (reference : Option Reference)
    (patIdx : Nat → Nat) : List ℚ :=
  let totalBeats : ℚ := 4 * bars
  let patterns :=
    match reference with
    | some ref =>
      match ref.genre with
      | some g => (rhythm_patterns g).getD defaultRhythms
      | none => defaultRhythms
    | none => defaultRhythms
  let ds := (drawLoop patterns totalBeats patIdx 20 0 0).1
  if ds = [] then List.replicate (bars * 8) (1/2) else ds

/-- The roman-numeral degree table of `_get_chord_notes`. -/
def roman_to_interval : List (String × ℤ) :=
  [("I", 0), ("i", 0), ("II", 2), ("ii", 2), ("III", 4), ("iii", 4),
   ("IV", 5), ("iv", 5), ("V", 7), ("v", 7), ("VI", 9), ("vi", 9),
   ("VII", 11), ("vii", 11), ("bII", 1), ("bIII", 3), ("bV", 6),
   ("bVI", 8), ("bVII", 10)]

/-- `MelodyGenerator._get_chord_notes`: strip `Maj7`/`7`/`°`/`m` suffixes,
look up the degree, pick minor/diminished/major triad intervals from the
symbol's shape, and append a major or minor seventh when the symbol contains
a `7`. -/
def get_chord_notes (chord : String) (key : ℤ) : List ℤ :=
  let chord_clean :=
    pyReplace (pyReplace (pyReplace (pyReplace chord "Maj7" "") "7" "") "°" "") "m" ""
  let root_interval := (roman_to_interval.lookup chord_clean).getD 0
  let chord_root := key + root_interval
  let intervals : List ℤ :=
    if pyStartsWith chord (pyLower chord_clean) ∧ chord_clean ≠ "V" then [0, 3, 7]
    else if pyContains chord "°" then [0, 3, 6]
    else [0, 4, 7]
  let intervals :=
    if pyContains chord "7" then
      if pyContains chord "Maj7" then intervals ++ [11] else intervals ++ [10]
    else intervals
  intervals.map (chord_root + ·)

/-- `MelodyGenerator._stepwise_movement`: snap the current note into the
scale if needed, then move one scale index up, down, or not at all, with the
direction forced near the scale extremes and the resulting index clamped to
the scale bounds. -/
def stepwise_movement (scale : List ℤ) (r : MRand) (i : Nat) (cur : ℤ) : ℤ :=
  let cur' := if cur ∈ scale then cur else argminAbs cur scale
  let idx := scale.indexOf cur'
  let dir : ℤ :=
    if idx ≤ 1 then 1
    else if scale.length - 2 ≤ idx then -1
    else [(-1 : ℤ), 0, 1].getD (r.stepChoice i % 3) 0
  let newIdx : Nat := (max 0 (min ((idx : ℤ) + dir) ((scale.length : ℤ) - 1))).toNat
  scale.getD newIdx 60

/-- `MelodyGenerator._leap_movement`: jump by a chosen interval in a chosen
direction and snap to the nearest scale tone. -/
def leap_movement (scale : List ℤ) (r : MRand) (i : Nat) (cur : ℤ) : ℤ :=
  let dir : ℤ := if r.leapDirPos i then 1 else -1
  let interval := [(3 : ℤ), 4, 5, 8].getD (r.leapIdx i % 4) 3
  argminAbs (cur + interval * dir) scale

/-- The body of the note loop of `_generate_melody_notes` for note index
`i`: phrase ends snap to the nearest stable tone, strong beats with a
non-empty chord progression snap to the nearest in-scale chord tone, and
other positions move stepwise with probability 0.7 or leap otherwise. -/
def nextNote (scale : List ℤ) (prog : Option (List String)) (root : ℤ)
    (r : MRand) (i : Nat) (cur : ℤ) : ℤ :=
  if (i + 1) % 8 = 0 then
    let stable := scale.filter fun n =>
      decide ((n - root) % 12 = 0 ∨ (n - root) % 12 = 4 ∨ (n - root) % 12 = 7)
    if stable ≠ [] then argminAbs cur stable else cur
  else if i % 4 = 0 ∧ prog.getD [] ≠ [] then
    let l := prog.getD []
    let chord := l.getD (i / 4 % l.length) "I"
    let chordNotes := get_chord_notes chord root
    let valid := chordNotes.filter fun n => scale.contains n
    if valid ≠ [] then argminAbs cur valid else cur
  else
    if r.moveP i < 7/10 then stepwise_movement scale r i cur
    else leap_movement scale r i cur

/-- The note loop of `_generate_melody_notes`: one note per duration slot,
each obtained from the previous by `nextNote`. -/
def genNotesAux (scale : List ℤ) (prog : Option (List String)) (root : ℤ)
    (r : MRand) : Nat → ℤ → List ℚ → List ℤ
  | _, _, [] => []
  | i, cur, _ :: rest =>
    let nxt := nextNote scale prog root r i cur
    nxt :: genNotesAux scale prog root r (i + 1) nxt rest

/-- The per-position replacement of `_smooth_melody`: when a leap larger
than an octave is followed by one larger than 7 semitones, substitute the
scale tone nearest the midpoint, if that strictly shrinks both leaps. -/
def smoothAt (scale : List ℤ) (p c n : ℤ) : ℤ :=
  let leap1 := |c - p|
  let leap2 := |n - c|
  if leap1 > 12 ∧ leap2 > 7 then
    let mid := (p + n) / 2
    let better := argminAbs mid scale
    if |better - p| < leap1 ∧ |n - better| < leap2 then better else c
  else c

/-- `MelodyGenerator._smooth_melody`; the Python loop reads the original
`notes` triple and writes only `smoothed[i]`, so it is this index-wise
map. -/
def smooth_melody (notes : List ℤ) (scale : List ℤ) : List ℤ :=
  if notes.length < 3 then notes
  else notes.mapIdx fun i c =>
    if 1 ≤ i ∧ i + 1 < notes.length then
      smoothAt scale (notes.getD (i - 1) c) c (notes.getD (i + 1) c)
    else c

/-- `MelodyGenerator._generate_melody_notes`: C-major fallback for an empty
scale, a tonic/fifth/first-note starting pitch, the note loop, and the final
smoothing pass. -/
def generate_melody_notes (scale_notes : List ℤ) (durations : List ℚ)
    (prog : Option (List String)) (root : ℤ) (r : MRand) : List ℤ :=
  let scale := if scale_notes = [] then [60, 62, 64, 65, 67, 69, 71] else scale_notes
  let start :=
    if root ∈ scale then root
    else if root + 7 ∈ scale then root + 7
    else scale.headD 60
  smooth_melody (genNotesAux scale prog root r 0 start durations) scale

/-- The three-octave, range-filtered, sorted scale pitch set built at the
top of `MelodyGenerator.generate`. -/
def extendedScale (key scaleName : String) : List ℤ :=
  let root := (note_to_midi.lookup key).getD 60
  let intervals := (scale_intervals scaleName).getD [0, 2, 4, 5, 7, 9, 11]
  let scaleNotes := intervals.map (root + ·)
  let ext := ([-1, 0, 1] : List ℤ).flatMap fun oct => scaleNotes.map (· + 12 * oct)
  sortStable (fun y x => decide (x ≤ y)) (ext.filter fun n => decide (48 ≤ n ∧ n ≤ 84))

/-- The melody record returned by `MelodyGenerator.generate`. -/
structure Melody where
  notes : List ℤ
  durations : List ℚ
  key : String
  scale : String
  tempo : ℚ
  total_duration : ℚ
deriving DecidableEq

/-- `MelodyGenerator.generate`, normal path (the `try` body). -/
def generate (key scaleName : String) (tempo : ℚ) (bars : Nat)
    (prog : Option (List String)) (reference : Option Reference) (r : MRand) :
    Melody :=
  let root := (note_to_midi.lookup key).getD 60
  let scale := extendedScale key scaleName
  let durations := generate_durations bars reference r.patIdx
  let notes := generate_melody_notes scale durations prog root r
  { notes := notes, durations := durations, key := key, scale := scaleName,
    tempo := tempo, total_duration := durations.sum }

/-- The `except` fallback of `MelodyGenerator.generate`: the fixed 8-note
C-major phrase repeated per bar over uniform 0.5-beat durations. -/
def fallbackMelody (key scaleName : String) (tempo : ℚ) (bars : Nat) : Melody :=
  let notes : List ℤ := (List.replicate bars [60, 62, 64, 65, 67, 65, 64, 62]).flatten
  let durations := List.replicate notes.length ((1 : ℚ)/2)
  { notes := notes, durations := durations, key := key, scale := scaleName,
    tempo := tempo, total_duration := durations.sum }

end MelodyGenerator

namespace HarmonySuggester

/-- One suggestion record returned by `HarmonySuggester.suggest`. -/
structure Suggestion where
  chords : List String
  key : String
  score : ℤ
  colors : List String
  description : String
deriving DecidableEq

/-- `HarmonySuggester.progressions`: genre → mood → progression list. -/
def progressions : String → Option (String → Option (List (List String)))
  | "pop" => some fun
      | "happy" => some
          [["I", "V", "vi", "IV"], ["I", "vi", "IV", "V"],
           ["I", "IV", "V", "I"], ["I", "iii", "vi", "IV"]]
      | "sad" => some
          [["vi", "IV", "I", "V"], ["i", "VII", "iv", "i"],
           ["vi", "ii", "V", "I"], ["i", "iv", "VII", "III"]]
      | _ => none
  | "jazz" => some fun
      | "happy" => some
          [["IMaj7", "vi7", "ii7", "V7"], ["IMaj7", "VII7", "IIIMaj7", "VI7"],
           ["IMaj7", "ii7", "V7", "IMaj7"], ["IMaj7", "IV7", "iii7", "vi7"]]
      | "sad" => some
          [["i7", "iv7", "VII7", "IIIMaj7"], ["i7", "ii°7", "V7", "i7"],
           ["vi7", "ii7", "V7", "IMaj7"], ["i7", "iv7", "i7", "V7"]]
      | _ => none
  | "rock" => some fun
      | "happy" => some
          [["I", "IV", "V", "I"], ["I", "V", "IV", "I"],
           ["I", "bVII", "IV", "I"], ["I", "vi", "IV", "V"]]
      | "sad" => some
          [["i", "bVII", "bVI", "V"], ["i", "iv", "i", "V"],
           ["vi", "IV", "I", "V"], ["i", "bIII", "bVII", "i"]]
      | _ => none
  | _ => none

/-- `HarmonySuggester.chord_colors`. -/
def chord_colors : List (String × String) :=
  [("I", "#4CAF50"), ("ii", "#2196F3"), ("iii", "#9C27B0"), ("IV", "#FF9800"),
   ("V", "#F44336"), ("vi", "#795548"), ("vii°", "#607D8B")]

/-- The `while len(extended_prog) < bars` tiling of `suggest`: repeat the
progression until it reaches `bars` entries, then truncate to `bars`. -/
def extendProg (prog : List String) (bars : Nat) : List String :=
  if prog.isEmpty then []
  else ((List.replicate (bars / prog.length + 1) prog).flatten).take bars

/-- `HarmonySuggester._get_progression_description`. -/
def get_progression_description (progression : List String) : String :=
  if progression = ["I", "V", "vi", "IV"] then
    "The 'pop progression' - used in countless hit songs"
  else if progression = ["I", "vi", "IV", "V"] then
    "Classic '50s progression - doo-wop style"
  else if progression = ["i", "bVII", "bVI", "V"] then
    "Andalusian cadence - dramatic and powerful"
  else if progression.contains "ii7" ∧ progression.contains "V7" then
    "Jazz ii-V-I movement - sophisticated and smooth"
  else
    "A compelling progression with strong voice leading"

/-- The suggestion record built for one template progression: tile to
`bars`, score 20 per distinct chord symbol plus 30 for a dominant, attach
colors and a description. -/
def mkSuggestion (key : String) (bars : Nat) (prog : List String) : Suggestion :=
  let extended := extendProg prog bars
  let uniqueChords := extended.dedup.length
  let hasDominant := extended.contains "V" || extended.contains "V7"
  let score : ℤ := uniqueChords * 20 + (if hasDominant then 30 else 0)
  let colors := extended.map fun chord =>
    ((chord_colors.lookup
        (pyReplace (pyReplace (pyReplace chord "Maj7" "") "7" "") "°" "")).getD "#888")
  { chords := extended, key := key, score := score, colors := colors,
    description := get_progression_description extended }

/-- `HarmonySuggester.suggest`: default unmatched genre/mood to
`"pop"`/`"happy"`, build one suggestion per template, and stable-sort by
score descending. -/
def suggest (key genre mood : String) (bars : Nat) : List Suggestion :=
  let genreTable :=
    match progressions genre with
    | some t => t
    | none => fun m => (progressions "pop").bind fun t => t m
  let base :=
    match genreTable mood with
    | some l => l
    | none => (genreTable "happy").getD []
  let suggestions := base.map (mkSuggestion key bars)
  sortStable (fun y x => decide (y.score ≤ x.score)) suggestions

end HarmonySuggester

namespace AudioProcessor

/-- One note message of the MIDI track built by `melody_to_midi`:
(is-note-on, pitch as passed to `Message`, delta time in ticks). -/
structure NoteMsg where
  isOn : Bool
  note : ℤ
  time : ℤ
deriving DecidableEq

/-- The note-event loop of `AudioProcessor.melody_to_midi` (mido's default
480 ticks per beat): `zip(notes, durations)` walks the paired prefix; each
pair appends a `note_on` at delta 0 (the `i == 0` case also computes
`int(0 * tps) = 0`) and a `note_off` after `int(duration * tps)` ticks.  The
pitch is passed through `int(note)` unchanged and no duration is skipped. -/
def melodyToMidiEvents (notes : List ℤ) (durations : List ℚ) (tempo : ℚ) :
    List NoteMsg :=
  let ticksPerSecond := tempo / 60 * 480
  (notes.zip durations).flatMap fun p =>
    [{ isOn := true, note := p.1, time := 0 },
     { isOn := false, note := p.1, time := pyint (p.2 * ticksPerSecond) }]

/-- The timing-and-allocation prefix of `AudioProcessor.pattern_to_audio`:
`seconds_per_step = 1 / (tempo / 60 * 4)` (ZeroDivisionError at tempo 0),
then `np.zeros(int(num_steps * seconds_per_step * 44100))` (ValueError for
a negative size).  Returns the step length and the buffer size. -/
def patternToAudioSetup (numSteps : Nat) (tempo : ℚ) : Except String (ℚ × ℤ) :=
  if tempo = 0 then .error "ZeroDivisionError"
  else
    let secondsPerStep := 1 / (tempo / 60 * 4)
    let totalSamples := pyint (numSteps * secondsPerStep * 44100)
    if totalSamples < 0 then .error "ValueError: negative dimensions are not allowed"
    else .ok (secondsPerStep, totalSamples)

/-- The `chord_intervals` table of `AudioProcessor._generate_chord_audio`. -/
def chord_intervals : List (String × List ℤ) :=
  [("I", [0, 4, 7]), ("ii", [2, 5, 9]), ("iii", [4, 7, 11]), ("IV", [5, 9, 0]),
   ("V", [7, 11, 2]), ("vi", [9, 0, 4]), ("vii", [11, 2, 5])]

/-- The chord-symbol resolution of `AudioProcessor._generate_chord_audio`:
strip `Maj7`/`7`/`°` and look the base symbol up in the fixed triad table
(default major `[0, 4, 7]`).  These are the semitone offsets whose tones the
render path synthesizes — no seventh is ever added. -/
def chordAudioIntervals (chord : String) : List ℤ :=
  let base := pyReplace (pyReplace (pyReplace chord "Maj7" "") "7" "") "°" ""
  (chord_intervals.lookup base).getD [0, 4, 7]

end AudioProcessor

namespace AudioCombiner

/-- `AudioCombiner._loop_audio`: truncate if already long enough, otherwise
tile whole copies and append the partial tail to reach `target` exactly. -/
def loop_audio (audio : List ℚ) (target : Nat) : List ℚ :=
  if target ≤ audio.length then audio.take target
  else
    let loopsNeeded := target / audio.length
    let remainder := target % audio.length
    (List.replicate loopsNeeded audio).flatten ++ audio.take remainder

/-- Peak normalization to `target` shared by the mix paths: rescale so the
maximum absolute sample is `target`, or leave a silent buffer alone. -/
def normalizeTo (target : ℚ) (l : List ℚ) : List ℚ :=
  if listPeak l > 0 then l.map fun x => x / listPeak l * target else l

/-- `AudioCombiner.combine` on two loaded mono tracks at the common sample
rate: loop-extend whichever track is shorter to the longer length, apply the
per-track mix levels, sum, and peak-normalize to 0.9. -/
def combine (beat melody : List ℚ) (beatLevel melodyLevel : ℚ) : List ℚ :=
  let maxLength := max beat.length melody.length
  let b := if beat.length < maxLength then loop_audio beat maxLength else beat
  let m := if melody.length < maxLength then loop_audio melody maxLength else melody
  normalizeTo (9/10) (List.zipWith (fun x y => x * beatLevel + y * melodyLevel) b m)

/-- `AudioCombiner.mix_multiple_tracks`, with the filesystem modelled by
`fs : path → Option track`: the default level `1.0 / len(track_paths)` is
computed over the *supplied* paths before anything is loaded (a
`ZeroDivisionError` for an empty list), then the existing tracks are loaded,
loop-extended to the running maximum length, scaled, summed and
peak-normalized to 0.9. -/
def mix_multiple_tracks (fs : String → Option (List ℚ)) (track_paths : List String)
    (mix_levels : Option (List ℚ)) : Except String (List ℚ) := do
  let levels ←
    match mix_levels with
    | some l => pure l
    | none => do
      let per ← pydivByNat 1 track_paths.length
      pure (List.replicate track_paths.length per)
  let tracks := track_paths.filterMap fs
  if tracks.isEmpty then throw "No valid tracks found"
  else
    let maxLength := tracks.foldl (fun m t => max m t.length) 0
    let padded := tracks.map fun t =>
      if t.length < maxLength then loop_audio t maxLength else t
    let mixed := (padded.zip levels).foldl
      (fun acc p => List.zipWith (· + ·) acc (p.1.map (· * p.2)))
      (List.replicate maxLength (0 : ℚ))
    pure (normalizeTo (9/10) mixed)

end AudioCombiner

namespace WholeSongGenerator

/-- One section record of a generated song. -/
structure Section where
  type : String
  start_time : ℚ
  duration : ℚ
  beat_pattern : List (List ℚ)
  melody : MelodyGenerator.Melody
  chords : List String
  energy : ℚ
  bars : Nat
deriving DecidableEq

/-- A song record (`variation_id` is absent on freshly generated songs and
set on arrangement variations). -/
structure Song where
  style : String
  tempo : ℚ
  key : String
  struct : List String
  sections : List Section
  total_duration : ℚ
  chord_progression : List (List String)
  variation_id : Option Nat
deriving DecidableEq

/-- `WholeSongGenerator`'s per-base-style variation list, with the generic
fallback for unknown styles. -/
def style_variations (baseStyle : String) : List String :=
  match baseStyle with
  | "pop" => ["acoustic", "electronic", "rock"]
  | "rock" => ["metal", "indie", "progressive"]
  | "hip-hop" => ["trap", "boom-bap", "experimental"]
  | "electronic" => ["house", "techno", "ambient"]
  | "jazz" => ["fusion", "bebop", "smooth"]
  | _ => ["alternative", "remix", "acoustic"]

/-- `WholeSongGenerator._get_style_complexity`: the fixed style → complexity
table, default 0.6. -/
def get_style_complexity (style : String) : ℚ :=
  match style with
  | "acoustic" => 4/10
  | "electronic" => 8/10
  | "metal" => 9/10
  | "ambient" => 3/10
  | "trap" => 7/10
  | "techno" => 8/10
  | "fusion" => 9/10
  | "indie" => 5/10
  | _ => 6/10

/-- `WholeSongGenerator.generate_arrangement_variations`: for each of the
first `min(num_variations, 3)` target styles, copy the song, re-tag its
style, set `variation_id`, and rebuild only each section's `beat_pattern`
with the per-style complexity (genre forwarded only for rock / jazz /
electronic targets).  `r i j` is the randomness of the beat regeneration of
variation `i`, section `j`. -/
def generate_arrangement_variations (baseSong : Song) (numVariations : Nat)
    (r : Nat → Nat → BeatGenerator.Rand) : List Song :=
  let targets := style_variations baseSong.style
  (List.range (min numVariations targets.length)).map fun i =>
    let target := targets.getD i ""
    { baseSong with
      style := target
      variation_id := some (i + 1)
      sections := baseSong.sections.mapIdx fun j s =>
        { s with
          beat_pattern :=
            BeatGenerator.generate
              (if target = "rock" ∨ target = "jazz" ∨ target = "electronic" then
                target
              else baseSong.style)
              baseSong.tempo s.bars (get_style_complexity target) none (r i j) } }

end WholeSongGenerator

/-- A fixed beat-generator oracle (all draws return 1, so no flip or ghost
fires) used to instantiate universally quantified theorems. -/
def cRand : BeatGenerator.Rand := { flip := fun _ _ => 1, ghost := fun _ => 1 }

/-- A fixed melody-generator oracle used to instantiate universally
quantified theorems. -/
def cMRand : MelodyGenerator.MRand :=
  { moveP := fun _ => 1, stepChoice := fun _ => 0, leapDirPos := fun _ => true,
    leapIdx := fun _ => 0, patIdx := fun _ => 0 }

/-- A concrete melody record for witness songs. -/
def wMelody : MelodyGenerator.Melody :=
  { notes := [60], durations := [1], key := "C", scale := "major", tempo := 120,
    total_duration := 1 }

/-- A concrete section for witness songs. -/
def wSection : WholeSongGenerator.Section :=
  { type := "verse", start_time := 0, duration := 2, beat_pattern := [],
    melody := wMelody, chords := ["I"], energy := 1/2, bars := 0 }

/-- A concrete base song used to instantiate the arrangement-variation
theorem. -/
def wSong : WholeSongGenerator.Song :=
  { style := "pop", tempo := 120, key := "C", struct := ["verse"],
    sections := [wSection], total_duration := 2, chord_progression := [["I"]],
    variation_id := none }

/-- The first arrangement variation of `wSong`. -/
def wVariation : WholeSongGenerator.Song :=
  (WholeSongGenerator.generate_arrangement_variations wSong 1 fun _ _ => cRand).getD 0 wSong

/-- A default suggestion record. -/
def dSuggestion : HarmonySuggester.Suggestion :=
  { chords := [], key := "", score := 0, colors := [], description := "" }

/-- The top-ranked suggestion of the pop / happy / 4-bar scenario. -/
def topSuggestion : HarmonySuggester.Suggestion :=
  (HarmonySuggester.suggest "C" "pop" "happy" 4).getD 0 dSuggestion

/-- `P` holds of `l.getD n d` whenever it holds of the default and of every
element. -/
theorem getD_prop {α : Type} (P : α → Prop) (l : List α) (d : α) (hd : P d)
    (hl : ∀ v ∈ l, P v) (n : Nat) : P (l.getD n d) := by
  rcases lt_or_le n l.length with h | h
  · rw [List.getD_eq_getElem l d h]
    exact hl _ (List.getElem_mem h)
  · rw [List.getD_eq_default l d h]
    exact hd

/-- The head taken with a default is a member of a non-empty list. -/
theorem getD_zero_mem {α : Type} (l : List α) (d : α) (h : l ≠ []) :
    l.getD 0 d ∈ l := by
  cases l with
  | nil => exact absurd rfl h
  | cons x xs => simp [List.getD]

/-- A successful association-list lookup returns the value component of some
entry. -/
theorem lookup_forall {β : Type} (P : β → Prop) :
    ∀ (l : List (String × β)) (k : String) (v : β),
      (∀ p ∈ l, P p.2) → l.lookup k = some v → P v := by
  intro l
  induction l with
  | nil => intro k v _ h; simp [List.lookup] at h
  | cons hd tl ih =>
    intro k v hall h
    obtain ⟨k', v'⟩ := hd
    cases hk : (k == k')
    · simp only [List.lookup, hk] at h
      exact ih k v (fun p hp => hall p (List.mem_cons_of_mem _ hp)) h
    · simp only [List.lookup, hk, Option.some.injEq] at h
      exact h ▸ hall (k', v') (by simp)

/-- `argminAbs` of a non-empty list is a member of it. -/
theorem argminAbs_mem (t : ℤ) (l : List ℤ) (h : l ≠ []) : argminAbs t l ∈ l := by
  cases l with
  | nil => exact absurd rfl h
  | cons x xs =>
    suffices hgen : ∀ (tl : List ℤ) (acc : ℤ), acc ∈ x :: xs → tl ⊆ x :: xs →
        tl.foldl (fun best y => if |y - t| < |best - t| then y else best) acc ∈ x :: xs by
      exact hgen xs x (by simp) (by intro a ha; simp [ha])
    intro tl
    induction tl with
    | nil => intro acc hacc _; exact hacc
    | cons y ys ihy =>
      intro acc hacc hsub
      simp only [List.foldl]
      by_cases hy : |y - t| < |acc - t|
      · rw [if_pos hy]
        exact ihy y (hsub (by simp)) fun a ha => hsub (List.mem_cons_of_mem _ ha)
      · rw [if_neg hy]
        exact ihy acc hacc fun a ha => hsub (List.mem_cons_of_mem _ ha)

/-- Membership is preserved by stable insertion. -/
theorem mem_insertStable {α : Type} (lt : α → α → Bool) (x : α) (l : List α) (a : α) :
    a ∈ insertStable lt x l ↔ a = x ∨ a ∈ l := by
  induction l with
  | nil => simp [insertStable]
  | cons y ys ih =>
    simp only [insertStable]
    by_cases h : lt y x
    · rw [if_pos h]; simp
    · rw [if_neg h]
      simp only [List.mem_cons, ih]
      tauto

/-- Membership is preserved by the stable sort. -/
theorem mem_sortStable {α : Type} (lt : α → α → Bool) (l : List α) (a : α) :
    a ∈ sortStable lt l ↔ a ∈ l := by
  induction l with
  | nil => simp [sortStable]
  | cons x xs ih => simp [sortStable, mem_insertStable, ih]

/-- Stable sort preserves length. -/
theorem length_sortStable {α : Type} (lt : α → α → Bool) (l : List α) :
    (sortStable lt l).length = l.length := by
  have hins : ∀ (x : α) (m : List α), (insertStable lt x m).length = m.length + 1 := by
    intro x m
    induction m with
    | nil => simp [insertStable]
    | cons y ys ih =>
      simp only [insertStable]
      by_cases h : lt y x
      · rw [if_pos h]; simp
      · rw [if_neg h]; simp [ih]
  induction l with
  | nil => simp [sortStable]
  | cons x xs ih => simp [sortStable, hins, ih]

/-- The peak of a list is nonnegative. -/
theorem listPeak_nonneg (l : List ℚ) : 0 ≤ listPeak l := by
  suffices hgen : ∀ (acc : ℚ), 0 ≤ acc →
      0 ≤ l.foldl (fun a x => max a |x|) acc from hgen 0 le_rfl
  induction l with
  | nil => intro acc hacc; exact hacc
  | cons x xs ih =>
    intro acc hacc
    exact ih _ (le_trans hacc (le_max_left _ _))

/-- The max-abs fold never drops below its accumulator. -/
theorem foldl_max_ge (l : List ℚ) : ∀ acc : ℚ, acc ≤ l.foldl (fun a y => max a |y|) acc := by
  induction l with
  | nil => intro acc; exact le_rfl
  | cons y ys ih =>
    intro acc
    exact le_trans (le_max_left acc |y|) (ih (max acc |y|))

/-- Every element of a list is bounded in absolute value by the peak. -/
theorem abs_le_listPeak : ∀ (l : List ℚ) (x : ℚ), x ∈ l → |x| ≤ listPeak l := by
  suffices hgen : ∀ (l : List ℚ) (x : ℚ), x ∈ l → ∀ acc : ℚ,
      |x| ≤ l.foldl (fun a y => max a |y|) acc by
    intro l x hx
    exact hgen l x hx 0
  intro l
  induction l with
  | nil => intro x hx; exact absurd hx (by simp)
  | cons y ys ih =>
    intro x hx acc
    rcases List.mem_cons.mp hx with rfl | hmem
    · exact le_trans (le_max_right acc |x|) (foldl_max_ge ys (max acc |x|))
    · exact ih x hmem (max acc |y|)

namespace BeatGenerator

/-- Every velocity in every genre template is 0 or 1, hence in `[0, 1]`. -/
theorem genre_patterns_bound (g : String) (pats : List (String × List ℚ))
    (h : genre_patterns g = some pats) :
    ∀ p ∈ pats, ∀ v ∈ p.2, 0 ≤ v ∧ v ≤ 1 := by
  unfold genre_patterns at h
  split at h <;> cases h <;> decide

/-- Template cells of a well-formed genre template lie in `[0, 1]`. -/
theorem templateCell_bound (pats : List (String × List ℚ))
    (hpats : ∀ p ∈ pats, ∀ v ∈ p.2, 0 ≤ v ∧ v ≤ 1) (i j : Nat) :
    0 ≤ templateCell pats i j ∧ templateCell pats i j ≤ 1 := by
  unfold templateCell
  cases hl : pats.lookup (drumNames.getD i "") with
  | none => norm_num
  | some p =>
    exact getD_prop (fun v => 0 ≤ v ∧ v ≤ 1) p 0 (by norm_num)
      (lookup_forall (fun q => ∀ v ∈ q, 0 ≤ v ∧ v ≤ 1) pats _ p hpats hl) (j % 16)

/-- Every kick velocity of the algorithmic fallback is 0 or 1. -/
theorem nnKick_bound (ref : Option Reference) : ∀ v ∈ nnKick ref, 0 ≤ v ∧ v ≤ 1 := by
  cases ref with
  | none => decide
  | some r =>
    simp only [nnKick]
    split_ifs <;> decide

/-- Cells of the algorithmic fallback grid lie in `[0, 1]`. -/
theorem nnCell_bound (ref : Option Reference) (i j : Nat) :
    0 ≤ nnCell ref i j ∧ nnCell ref i j ≤ 1 := by
  unfold nnCell
  split_ifs
  · exact getD_prop (fun v => 0 ≤ v ∧ v ≤ 1) _ 0 (by norm_num) (nnKick_bound ref) _
  all_goals norm_num

/-- `_add_variations` keeps every cell in `[0, 1]`: a flip maps `v` to
`1 - v`, the fill writes 1, ghost notes write 0.5. -/
theorem variedCell_bound (complexity : ℚ) (ref : Option Reference) (r : Rand)
    (cols : Nat) (base : Nat → Nat → ℚ)
    (hbase : ∀ i j, 0 ≤ base i j ∧ base i j ≤ 1) (i j : Nat) :
    0 ≤ variedCell complexity ref r cols base i j ∧
      variedCell complexity ref r cols base i j ≤ 1 := by
  have hb := hbase i j
  simp only [variedCell]
  split_ifs <;> constructor <;> linarith [hb.1, hb.2]

/-- Shape and value bounds for a materialized grid with bounded cells. -/
theorem mkGrid_spec (rows cols : Nat) (f : Nat → Nat → ℚ)
    (hf : ∀ i j, 0 ≤ f i j ∧ f i j ≤ 1) :
    (mkGrid rows cols f).length = rows ∧
      ∀ row ∈ mkGrid rows cols f, row.length = cols ∧ ∀ v ∈ row, 0 ≤ v ∧ v ≤ 1 := by
  refine ⟨by simp [mkGrid], ?_⟩
  intro row hrow
  simp only [mkGrid, List.mem_map] at hrow
  obtain ⟨i, _, rfl⟩ := hrow
  refine ⟨by simp, ?_⟩
  intro v hv
  simp only [List.mem_map] at hv
  obtain ⟨j, _, rfl⟩ := hv
  exact hf i j

end BeatGenerator

/-- C1: every pattern grid returned by `BeatGenerator.generate` — any genre,
`bars ≥ 1`, any complexity in `[0, 1]`, with or without a reference record,
on the genre-template path and on the algorithmic fallback path, after
`_add_variations` — has shape `(9, 16 * bars)` and every cell value lies in
`[0, 1]`. -/
theorem c1_pattern_grid_shape_and_values (genre : String) (tempo : ℚ)
    (bars : Nat) (complexity : ℚ) (reference : Option Reference)
    (r : BeatGenerator.Rand) (hbars : 1 ≤ bars) (hc0 : 0 ≤ complexity)
    (hc1 : complexity ≤ 1) :
    (BeatGenerator.generate genre tempo bars complexity reference r).length = 9 ∧
      ∀ row ∈ BeatGenerator.generate genre tempo bars complexity reference r,
        row.length = 16 * bars ∧ ∀ v ∈ row, 0 ≤ v ∧ v ≤ 1 := by
  simp only [BeatGenerator.generate]
  cases hg : BeatGenerator.genre_patterns (BeatGenerator.adjustedGenre genre reference) with
  | some pats =>
    dsimp only
    by_cases hc : BeatGenerator.adjustedComplexity complexity reference > 1/2
    · rw [if_pos hc]
      exact BeatGenerator.mkGrid_spec 9 (16 * bars) _
        (BeatGenerator.variedCell_bound _ _ _ _ _
          (BeatGenerator.templateCell_bound pats
            (BeatGenerator.genre_patterns_bound _ pats hg)))
    · rw [if_neg hc]
      exact BeatGenerator.mkGrid_spec 9 (16 * bars) _
        (BeatGenerator.templateCell_bound pats
          (BeatGenerator.genre_patterns_bound _ pats hg))
  | none =>
    dsimp only
    by_cases hc : BeatGenerator.adjustedComplexity complexity reference > 1/2
    · rw [if_pos hc]
      exact BeatGenerator.mkGrid_spec 9 (16 * bars) _
        (BeatGenerator.variedCell_bound _ _ _ _ _ (BeatGenerator.nnCell_bound reference))
    · rw [if_neg hc]
      exact BeatGenerator.mkGrid_spec 9 (16 * bars) _ (BeatGenerator.nnCell_bound reference)

/-- Witness for C1 at genre "hip-hop", tempo 120, 1 bar, complexity 0.7,
no reference. -/
theorem c1_pattern_grid_shape_and_values_witness :
    1 ≤ 1 ∧ (0 : ℚ) ≤ 7/10 ∧ (7 : ℚ)/10 ≤ 1 ∧
      ((BeatGenerator.generate "hip-hop" 120 1 (7/10) none cRand).length = 9 ∧
        ∀ row ∈ BeatGenerator.generate "hip-hop" 120 1 (7/10) none cRand,
          row.length = 16 * 1 ∧ ∀ v ∈ row, 0 ≤ v ∧ v ≤ 1) :=
  ⟨le_rfl, by norm_num, by norm_num,
    c1_pattern_grid_shape_and_values "hip-hop" 120 1 (7/10) none cRand le_rfl
      (by norm_num) (by norm_num)⟩

namespace MelodyGenerator

/-- The note loop emits exactly one note per duration slot. -/
theorem genNotesAux_length (scale : List ℤ) (prog : Option (List String))
    (root : ℤ) (r : MRand) :
    ∀ (ds : List ℚ) (i : Nat) (cur : ℤ),
      (genNotesAux scale prog root r i cur ds).length = ds.length := by
  intro ds
  induction ds with
  | nil => intro i cur; rfl
  | cons d rest ih =>
    intro i cur
    simp only [genNotesAux, List.length_cons, ih]

/-- Smoothing preserves the number of notes. -/
theorem smooth_melody_length (notes scale : List ℤ) :
    (smooth_melody notes scale).length = notes.length := by
  unfold smooth_melody
  split_ifs
  · rfl
  · exact List.length_mapIdx

/-- A stepwise move lands on a scale tone. -/
theorem stepwise_movement_mem (scale : List ℤ) (r : MRand) (i : Nat) (cur : ℤ)
    (h : scale ≠ []) : stepwise_movement scale r i cur ∈ scale := by
  unfold stepwise_movement
  have hlen : 0 < scale.length := List.length_pos.mpr h
  set idx := scale.indexOf (if cur ∈ scale then cur else argminAbs cur scale) with hidx
  set dir : ℤ :=
    if idx ≤ 1 then 1
    else if scale.length - 2 ≤ idx then -1
    else [(-1 : ℤ), 0, 1].getD (r.stepChoice i % 3) 0 with hdir
  have h1 : min ((idx : ℤ) + dir) ((scale.length : ℤ) - 1) ≤ (scale.length : ℤ) - 1 :=
    min_le_right _ _
  have h2 : (0 : ℤ) ≤ max 0 (min ((idx : ℤ) + dir) ((scale.length : ℤ) - 1)) :=
    le_max_left _ _
  have h3 : max 0 (min ((idx : ℤ) + dir) ((scale.length : ℤ) - 1)) ≤ (scale.length : ℤ) - 1 :=
    max_le (by omega) h1
  have hn : (max 0 (min ((idx : ℤ) + dir) ((scale.length : ℤ) - 1))).toNat < scale.length := by
    omega
  rw [List.getD_eq_getElem scale 60 hn]
  exact List.getElem_mem hn

/-- A leap lands on a scale tone. -/
theorem leap_movement_mem (scale : List ℤ) (r : MRand) (i : Nat) (cur : ℤ)
    (h : scale ≠ []) : leap_movement scale r i cur ∈ scale :=
  argminAbs_mem _ _ h

/-- Every note the loop body produces is a scale tone, provided the current
note is one. -/
theorem nextNote_mem (scale : List ℤ) (prog : Option (List String)) (root : ℤ)
    (r : MRand) (i : Nat) (cur : ℤ) (hcur : cur ∈ scale) (h : scale ≠ []) :
    nextNote scale prog root r i cur ∈ scale := by
  simp only [nextNote]
  split_ifs with h1 h2 h3 h4 h5
  · exact List.mem_of_mem_filter (argminAbs_mem _ _ h2)
  · exact hcur
  · have hv := argminAbs_mem cur _ h4
    have := (List.mem_filter.mp hv).2
    simpa [List.elem_eq_mem] using this
  · exact hcur
  · exact stepwise_movement_mem scale r i cur h
  · exact leap_movement_mem scale r i cur h

/-- All notes emitted by the note loop are scale tones. -/
theorem genNotesAux_mem (scale : List ℤ) (prog : Option (List String))
    (root : ℤ) (r : MRand) (h : scale ≠ []) :
    ∀ (ds : List ℚ) (i : Nat) (cur : ℤ), cur ∈ scale →
      ∀ x ∈ genNotesAux scale prog root r i cur ds, x ∈ scale := by
  intro ds
  induction ds with
  | nil => intro i cur _ x hx; simp [genNotesAux] at hx
  | cons d rest ih =>
    intro i cur hcur x hx
    simp only [genNotesAux, List.mem_cons] at hx
    rcases hx with rfl | hx
    · exact nextNote_mem scale prog root r i cur hcur h
    · exact ih (i + 1) _ (nextNote_mem scale prog root r i cur hcur h) x hx

/-- A smoothed note is a scale tone or the original note. -/
theorem smoothAt_mem (scale : List ℤ) (p c n : ℤ) (hc : c ∈ scale)
    (h : scale ≠ []) : smoothAt scale p c n ∈ scale := by
  simp only [smoothAt]
  split_ifs
  · exact argminAbs_mem _ _ h
  · exact hc
  · exact hc

/-- Smoothing keeps every note on the scale. -/
theorem smooth_melody_mem (notes scale : List ℤ)
    (hall : ∀ x ∈ notes, x ∈ scale) (h : scale ≠ []) :
    ∀ x ∈ smooth_melody notes scale, x ∈ scale := by
  unfold smooth_melody
  split_ifs
  · exact hall
  · intro x hx
    rw [List.mem_iff_getElem] at hx
    obtain ⟨i, hi, hx⟩ := hx
    rw [List.getElem_mapIdx] at hx
    subst hx
    have hi2 : i < notes.length := by simpa using hi
    have hmem : notes[i] ∈ notes := List.getElem_mem hi2
    split_ifs
    · exact smoothAt_mem scale _ _ _ (hall _ hmem) h
    · exact hall _ hmem

/-- Every pitch of the three-octave range-filtered scale lies in
`[48, 84]`. -/
theorem extendedScale_bounds (key scaleName : String) :
    ∀ n ∈ extendedScale key scaleName, 48 ≤ n ∧ n ≤ 84 := by
  intro n hn
  unfold extendedScale at hn
  rw [mem_sortStable] at hn
  have := (List.mem_filter.mp hn).2
  exact of_decide_eq_true this

end MelodyGenerator

namespace MelodyGenerator

/-- The starting pitch of the note loop is always a scale tone. -/
theorem start_mem (scale : List ℤ) (root : ℤ) (hne : scale ≠ []) :
    (if root ∈ scale then root
     else if root + 7 ∈ scale then root + 7
     else scale.headD 60) ∈ scale := by
  split_ifs with h1 h2
  · exact h1
  · exact h2
  · cases scale with
    | nil => exact absurd rfl hne
    | cons a l => simp [List.headD]

/-- Core spec of the note pipeline: one note per duration, all notes on the
scale hence within the MIDI range whenever the scale is. -/
theorem notes_core_spec (scale : List ℤ) (hne : scale ≠ [])
    (hb : ∀ n ∈ scale, 48 ≤ n ∧ n ≤ 84) (start : ℤ) (hstart : start ∈ scale)
    (durations : List ℚ) (prog : Option (List String)) (root : ℤ) (r : MRand) :
    (smooth_melody (genNotesAux scale prog root r 0 start durations) scale).length =
        durations.length ∧
      ∀ x ∈ smooth_melody (genNotesAux scale prog root r 0 start durations) scale,
        0 ≤ x ∧ x ≤ 127 := by
  constructor
  · rw [smooth_melody_length, genNotesAux_length]
  · intro x hx
    have hmem := smooth_melody_mem _ scale
      (genNotesAux_mem scale prog root r hne durations 0 start hstart) hne x hx
    have := hb x hmem
    omega

/-- `_generate_melody_notes` yields one in-range note per duration whenever
the supplied scale pitches lie in `[48, 84]` (the C-major guard for an empty
scale does too). -/
theorem generate_melody_notes_spec (scale_notes : List ℤ) (durations : List ℚ)
    (prog : Option (List String)) (root : ℤ) (r : MRand)
    (hb : ∀ n ∈ scale_notes, 48 ≤ n ∧ n ≤ 84) :
    (generate_melody_notes scale_notes durations prog root r).length =
        durations.length ∧
      ∀ x ∈ generate_melody_notes scale_notes durations prog root r,
        0 ≤ x ∧ x ≤ 127 := by
  simp only [generate_melody_notes]
  by_cases hs : scale_notes = []
  · rw [if_pos hs]
    exact notes_core_spec _ (by decide) (by decide) _
      (start_mem _ root (by decide)) durations prog root r
  · rw [if_neg hs]
    exact notes_core_spec _ hs hb _ (start_mem _ root hs) durations prog root r

end MelodyGenerator

/-- C2: every melody record returned by `MelodyGenerator.generate` — any
key, scale, bars, optional chord progression and reference — satisfies
`len(notes) = len(durations)` with every pitch in `[0, 127]`, and the
fallback path satisfies the same invariants. -/
theorem c2_melody_lengths_and_pitch_range (key scaleName : String) (tempo : ℚ)
    (bars : Nat) (prog : Option (List String)) (reference : Option Reference)
    (r : MelodyGenerator.MRand) :
    ((MelodyGenerator.generate key scaleName tempo bars prog reference r).notes.length =
        (MelodyGenerator.generate key scaleName tempo bars prog reference r).durations.length ∧
      ∀ p ∈ (MelodyGenerator.generate key scaleName tempo bars prog reference r).notes,
        0 ≤ p ∧ p ≤ 127) ∧
    ((MelodyGenerator.fallbackMelody key scaleName tempo bars).notes.length =
        (MelodyGenerator.fallbackMelody key scaleName tempo bars).durations.length ∧
      ∀ p ∈ (MelodyGenerator.fallbackMelody key scaleName tempo bars).notes,
        0 ≤ p ∧ p ≤ 127) := by
  constructor
  · simp only [MelodyGenerator.generate]
    exact MelodyGenerator.generate_melody_notes_spec _ _ prog _ r
      (MelodyGenerator.extendedScale_bounds key scaleName)
  · constructor
    · simp [MelodyGenerator.fallbackMelody]
    · intro p hp
      simp only [MelodyGenerator.fallbackMelody] at hp
      rw [List.mem_flatten] at hp
      obtain ⟨l, hl, hpl⟩ := hp
      have hll := List.eq_of_mem_replicate hl
      subst hll
      simp only [List.mem_cons, List.not_mem_nil, or_false] at hpl
      rcases hpl with rfl | rfl | rfl | rfl | rfl | rfl | rfl | rfl <;> omega

namespace MelodyGenerator

/-- Spec of one pattern pass: the emitted durations undershoot the new
current beat by at most the 0.1 discard, the current beat never passes the
bar boundary, a pass without boundary hit advances by exactly the pattern
sum and emits exactly the pattern, and a boundary hit lands exactly on the
boundary. -/
theorem consume_spec (total : ℚ) :
    ∀ (pat : List ℚ) (current : ℚ), current ≤ total →
      current + (consume total current pat).1.sum ≤ (consume total current pat).2.1 ∧
      (consume total current pat).2.1 - 1/10 ≤ current + (consume total current pat).1.sum ∧
      (consume total current pat).2.1 ≤ total ∧
      ((consume total current pat).2.2 = false →
        (consume total current pat).2.1 = current + pat.sum ∧
        (consume total current pat).1.sum = pat.sum) ∧
      ((consume total current pat).2.2 = true → (consume total current pat).2.1 = total) := by
  intro pat
  induction pat with
  | nil =>
    intro current hc
    simp [consume, hc]
  | cons d rest ih =>
    intro current hc
    by_cases hfit : current + d ≤ total
    · have hrec := ih (current + d) hfit
      simp only [consume, if_pos hfit, List.sum_cons]
      refine ⟨by linarith [hrec.1], by linarith [hrec.2.1], hrec.2.2.1, ?_, hrec.2.2.2.2⟩
      intro hb
      have := hrec.2.2.2.1 hb
      constructor
      · linarith [this.1]
      · linarith [this.2]
    · simp only [consume, if_neg hfit]
      by_cases hrem : total - current > 1/10
      · rw [if_pos hrem]
        simp only [List.sum_cons, List.sum_nil]
        refine ⟨by linarith, by linarith, le_rfl, ?_, by simp⟩
        intro hb
        exact absurd hb (by simp)
      · rw [if_neg hrem]
        simp only [List.sum_nil]
        refine ⟨by linarith, by linarith, le_rfl, ?_, by simp⟩
        intro hb
        exact absurd hb (by simp)

/-- The draw loop is inert once the bar boundary is reached. -/
theorem drawLoop_at_total (patterns : List (List ℚ)) (total : ℚ)
    (patIdx : Nat → Nat) :
    ∀ (fuel attempts : Nat), drawLoop patterns total patIdx fuel attempts total = ([], total) := by
  intro fuel attempts
  cases fuel with
  | zero => rfl
  | succ n => simp [drawLoop]

/-- Spec of the bounded draw loop: the discard is at most a single 0.1 gap,
the final beat never passes the boundary, and when every drawn pattern sums
to at least 3.5 beats the final beat reaches
`min total (current + 3.5 * fuel)`. -/
theorem drawLoop_spec (patterns : List (List ℚ)) (total : ℚ) (patIdx : Nat → Nat)
    (hmin : ∀ k, (7 : ℚ)/2 ≤ (patterns.getD (patIdx k % patterns.length) []).sum) :
    ∀ (fuel attempts : Nat) (current : ℚ), current ≤ total →
      current + (drawLoop patterns total patIdx fuel attempts current).1.sum ≤
          (drawLoop patterns total patIdx fuel attempts current).2 ∧
      (drawLoop patterns total patIdx fuel attempts current).2 - 1/10 ≤
          current + (drawLoop patterns total patIdx fuel attempts current).1.sum ∧
      (drawLoop patterns total patIdx fuel attempts current).2 ≤ total ∧
      min total (current + (7/2) * fuel) ≤
          (drawLoop patterns total patIdx fuel attempts current).2 := by
  intro fuel
  induction fuel with
  | zero =>
    intro attempts current hc
    simp only [drawLoop, List.sum_nil, add_zero, Nat.cast_zero, mul_zero]
    exact ⟨le_rfl, by linarith, hc, min_le_right _ _⟩
  | succ n ih =>
    intro attempts current hc
    by_cases hlt : current < total
    · have hcon := consume_spec total
        (patterns.getD (patIdx attempts % patterns.length) []) current hc
      simp only [drawLoop, if_pos hlt]
      rcases hbb : (consume total current
          (patterns.getD (patIdx attempts % patterns.length) [])).2.2 with _ | _
      · -- no boundary hit: exact pattern-sum advance, then recurse
        have hexact := hcon.2.2.2.1 hbb
        have hrec := ih (attempts + 1)
          (consume total current (patterns.getD (patIdx attempts % patterns.length) [])).2.1
          hcon.2.2.1
        simp only [List.sum_append]
        refine ⟨?_, ?_, hrec.2.2.1, ?_⟩
        · linarith [hrec.1, hexact.1, hexact.2]
        · linarith [hrec.2.1, hexact.1, hexact.2]
        · have hsum : (7 : ℚ)/2 ≤
              (patterns.getD (patIdx attempts % patterns.length) []).sum := hmin attempts
          have hstep : min total (current + (7/2) * ((n + 1 : Nat) : ℚ)) ≤
              min total ((consume total current
                (patterns.getD (patIdx attempts % patterns.length) [])).2.1 +
                (7/2) * (n : ℚ)) := by
            apply min_le_min le_rfl
            rw [hexact.1]
            push_cast
            linarith
          exact le_trans hstep hrec.2.2.2
      · -- boundary hit: current lands on total, loop becomes inert
        have htot := hcon.2.2.2.2 hbb
        rw [htot, drawLoop_at_total]
        simp only [List.sum_append, List.sum_nil, add_zero]
        refine ⟨by linarith [hcon.1, htot], ?_, le_rfl, min_le_left _ _⟩
        have h2 := hcon.2.1
        rw [htot] at h2
        linarith
    · simp only [drawLoop, if_neg hlt, List.sum_nil, add_zero]
      have hte : current = total := le_antisymm hc (not_lt.mp hlt)
      exact ⟨le_rfl, by linarith, hc, by rw [hte]; exact min_le_left _ _⟩

/-- Each of the four default rhythm patterns, as drawn by any choice index,
sums to at least 3.5 beats. -/
theorem defaultRhythms_min_sum (patIdx : Nat → Nat) (k : Nat) :
    (7 : ℚ)/2 ≤ (defaultRhythms.getD (patIdx k % defaultRhythms.length) []).sum := by
  have hlen : defaultRhythms.length = 4 := by simp [defaultRhythms]
  rw [hlen]
  have h4 : patIdx k % 4 < 4 := Nat.mod_lt _ (by norm_num)
  have : patIdx k % 4 = 0 ∨ patIdx k % 4 = 1 ∨ patIdx k % 4 = 2 ∨ patIdx k % 4 = 3 := by
    omega
  rcases this with h | h | h | h <;> rw [h] <;> norm_num [defaultRhythms]

/-- On the default-pattern path with at most 17 bars, `_generate_durations`
sums to within 0.1 beat below `bars * 4` (so within one rhythm slot). -/
theorem generate_durations_bounds (bars : Nat) (patIdx : Nat → Nat)
    (hbars1 : 1 ≤ bars) (hbars17 : bars ≤ 17) :
    4 * (bars : ℚ) - 1/10 ≤ (generate_durations bars none patIdx).sum ∧
      (generate_durations bars none patIdx).sum ≤ 4 * bars := by
  have htot0 : (0 : ℚ) ≤ 4 * bars := by positivity
  have hspec := drawLoop_spec defaultRhythms (4 * bars) patIdx
    (defaultRhythms_min_sum patIdx) 20 0 0 htot0
  have hreach : (4 : ℚ) * bars ≤ 0 + (7/2) * (20 : Nat) := by
    push_cast
    have : (bars : ℚ) ≤ 17 := by exact_mod_cast hbars17
    linarith
  have hfinal : (drawLoop defaultRhythms (4 * bars) patIdx 20 0 0).2 = 4 * bars := by
    have hmin : min (4 * (bars : ℚ)) (0 + (7/2) * (20 : Nat)) = 4 * bars :=
      min_eq_left hreach
    have h1 := hspec.2.2.2
    rw [hmin] at h1
    exact le_antisymm hspec.2.2.1 h1
  have hsum1 : (drawLoop defaultRhythms (4 * bars) patIdx 20 0 0).1.sum ≤ 4 * bars := by
    have := hspec.1
    rw [hfinal] at this
    linarith
  have hsum2 : 4 * (bars : ℚ) - 1/10 ≤ (drawLoop defaultRhythms (4 * bars) patIdx 20 0 0).1.sum := by
    have := hspec.2.1
    rw [hfinal] at this
    linarith
  have hb1 : (1 : ℚ) ≤ bars := by exact_mod_cast hbars1
  have hne : (drawLoop defaultRhythms (4 * bars) patIdx 20 0 0).1 ≠ [] := by
    intro hnil
    rw [hnil] at hsum2
    simp only [List.sum_nil] at hsum2
    linarith
  simp only [generate_durations]
  rw [if_neg hne]
  exact ⟨hsum2, hsum1⟩

end MelodyGenerator

/-- C3 (amended): on the default-pattern path (no reference genre), for
every random stream, the duration-assembly loop lands the sum of durations
within 0.1 beat — less than one rhythm slot — of `bars * 4`, for every bar
count up to 17; the 32-bar section sizes of the song composer exceed what
the 20-draw budget can cover (see the counterexample). -/
theorem c3_duration_sum_within_slot (patIdx : Nat → Nat) (bars : Nat)
    (h1 : 1 ≤ bars) (h17 : bars ≤ 17) :
    4 * (bars : ℚ) - 1/10 ≤ (MelodyGenerator.generate_durations bars none patIdx).sum ∧
      (MelodyGenerator.generate_durations bars none patIdx).sum ≤ 4 * bars :=
  MelodyGenerator.generate_durations_bounds bars patIdx h1 h17

/-- Witness for the amended C3 at one bar with a constant pattern choice. -/
theorem c3_duration_sum_within_slot_witness :
    1 ≤ 1 ∧ 1 ≤ 17 ∧
      (4 * ((1 : Nat) : ℚ) - 1/10 ≤
          (MelodyGenerator.generate_durations 1 none fun _ => 0).sum ∧
        (MelodyGenerator.generate_durations 1 none fun _ => 0).sum ≤ 4 * ((1 : Nat) : ℚ)) :=
  ⟨le_rfl, by norm_num, c3_duration_sum_within_slot (fun _ => 0) 1 le_rfl (by norm_num)⟩

set_option maxHeartbeats 2000000 in
set_option maxRecDepth 4000 in
/-- C3 counterexample: at the 32-bar section size used by the song composer
(128 beats), with the random stream always choosing the first default
pattern (4 beats per draw), the 20-attempt loop stops at 80 beats — 48
beats short of the bar boundary, far more than one slot — and because the
result is non-empty the uniform 0.5-beat fallback never fires. -/
theorem c3_counterexample_32_bars :
    (MelodyGenerator.generate_durations 32 none fun _ => 0).sum = 80 ∧
      4 * ((32 : Nat) : ℚ) - (MelodyGenerator.generate_durations 32 none fun _ => 0).sum > 1 := by
  have h1 : (MelodyGenerator.drawLoop MelodyGenerator.defaultRhythms
      (4 * ((32 : Nat) : ℚ)) (fun _ => 0) 20 0 0).1.sum = 80 := by
    norm_num [MelodyGenerator.drawLoop, MelodyGenerator.consume,
      MelodyGenerator.defaultRhythms]
  have hne : (MelodyGenerator.drawLoop MelodyGenerator.defaultRhythms
      (4 * ((32 : Nat) : ℚ)) (fun _ => 0) 20 0 0).1 ≠ [] := by
    intro hnil
    rw [hnil] at h1
    simp at h1
  have h : (MelodyGenerator.generate_durations 32 none fun _ => 0).sum = 80 := by
    simp only [MelodyGenerator.generate_durations]
    rw [if_neg hne]
    exact h1
  refine ⟨h, ?_⟩
  rw [h]
  norm_num

/-- Stable insertion by descending integer key preserves sortedness. -/
theorem sorted_insertStable {α : Type} (key : α → ℤ) (x : α) :
    ∀ l : List α, List.Sorted (fun a b => key b ≤ key a) l →
      List.Sorted (fun a b => key b ≤ key a)
        (insertStable (fun y z => decide (key y ≤ key z)) x l) := by
  intro l
  induction l with
  | nil => intro _; simp [insertStable]
  | cons y ys ih =>
    intro hl
    rw [List.sorted_cons] at hl
    simp only [insertStable]
    by_cases h : key y ≤ key x
    · rw [if_pos (by simpa using h)]
      rw [List.sorted_cons]
      refine ⟨?_, List.sorted_cons.mpr hl⟩
      intro b hb
      rcases List.mem_cons.mp hb with rfl | hb
      · exact h
      · exact le_trans (hl.1 b hb) h
    · rw [if_neg (by simpa using h)]
      rw [List.sorted_cons]
      refine ⟨?_, ih hl.2⟩
      intro b hb
      rcases (mem_insertStable _ x ys b).mp hb with rfl | hb
      · exact le_of_lt (not_le.mp h)
      · exact hl.1 b hb

/-- The stable sort by descending integer key produces a descending list. -/
theorem sorted_sortStable {α : Type} (key : α → ℤ) (l : List α) :
    List.Sorted (fun a b => key b ≤ key a)
      (sortStable (fun y z => decide (key y ≤ key z)) l) := by
  induction l with
  | nil => simp [sortStable]
  | cons x xs ih => exact sorted_insertStable key x _ ih

/-- C4 (amended): `_get_chord_notes("V7", 60)` deterministically yields the
pitches G3–B3–D4–F4, i.e. pitch-class set {G, B, D, F} = {7, 11, 2, 5}; the
chord-to-audio render path, however, resolves "V7" to the plain dominant
triad offsets {7, 11, 2} — the seventh is dropped there. -/
theorem c4_v7_resolution :
    MelodyGenerator.get_chord_notes "V7" 60 = [67, 71, 74, 77] ∧
      (MelodyGenerator.get_chord_notes "V7" 60).map (fun n => n % 12) = [7, 11, 2, 5] ∧
      AudioProcessor.chordAudioIntervals "V7" = [7, 11, 2] := by
  decide

/-- C4 counterexample: the render path's interval set for "V7" is the bare
triad {7, 11, 2}; the minor-seventh pitch class 5 (F in the key of C) is
absent, so the chord-to-audio path does not produce the claimed pitch-class
set {G, B, D, F}. -/
theorem c4_counterexample_render_drops_seventh :
    AudioProcessor.chordAudioIntervals "V7" = [7, 11, 2] ∧
      (5 : ℤ) ∉ AudioProcessor.chordAudioIntervals "V7" := by
  decide

/-- C5: `suggest("C", "pop", "happy", 4)` ranks the pop progression
`["I", "V", "vi", "IV"]` first with the 'pop progression' description;
every candidate's score is 20 per distinct chord symbol plus 30 when a
dominant ("V"/"V7") is present; the list is sorted by descending score with
ties kept in template order. -/
theorem c5_suggest_ranking :
    ((HarmonySuggester.suggest "C" "pop" "happy" 4).map fun s =>
        (s.chords, s.score, s.description)) =
      [(["I", "V", "vi", "IV"], 110,
          "The 'pop progression' - used in countless hit songs"),
       (["I", "vi", "IV", "V"], 110, "Classic '50s progression - doo-wop style"),
       (["I", "IV", "V", "I"], 90, "A compelling progression with strong voice leading"),
       (["I", "iii", "vi", "IV"], 80,
          "A compelling progression with strong voice leading")] ∧
    ∀ (key genre mood : String) (bars : Nat),
      (∀ s : HarmonySuggester.Suggestion, s ∈ HarmonySuggester.suggest key genre mood bars →
        s.score = 20 * s.chords.dedup.length +
          (if s.chords.contains "V" || s.chords.contains "V7" then 30 else 0)) ∧
      List.Sorted (fun a b : HarmonySuggester.Suggestion => b.score ≤ a.score)
        (HarmonySuggester.suggest key genre mood bars) := by
  refine ⟨by decide, ?_⟩
  intro key genre mood bars
  constructor
  · intro s hs
    simp only [HarmonySuggester.suggest] at hs
    rw [mem_sortStable] at hs
    obtain ⟨p, hp, rfl⟩ := List.mem_map.mp hs
    simp only [HarmonySuggester.mkSuggestion]
    split_ifs <;> ring
  · simp only [HarmonySuggester.suggest]
    exact sorted_sortStable (fun s : HarmonySuggester.Suggestion => s.score) _

/-- Witness for C5: the scoring identity instantiated at the top-ranked
pop / happy suggestion. -/
theorem c5_suggest_ranking_witness :
    topSuggestion.score = 20 * topSuggestion.chords.dedup.length +
      (if topSuggestion.chords.contains "V" || topSuggestion.chords.contains "V7"
        then 30 else 0) :=
  (c5_suggest_ranking.2 "C" "pop" "happy" 4).1 topSuggestion
    (getD_zero_mem _ _ (by decide))

/-- Zipping agrees with zipping the common-length prefixes. -/
theorem zip_take_min (l1 : List ℤ) : ∀ l2 : List ℚ,
    (l1.take (min l1.length l2.length)).zip (l2.take (min l1.length l2.length)) =
      l1.zip l2 := by
  induction l1 with
  | nil => intro l2; simp
  | cons x xs ih =>
    intro l2
    cases l2 with
    | nil => simp
    | cons y ys =>
      simp only [List.length_cons, Nat.succ_min_succ, List.take_succ_cons,
        List.zip_cons_cons, ih ys]

/-- Mapping the pitch out of the emitted on/off pair stream recovers each
zipped pitch twice. -/
theorem map_note_flatMap (t : ℚ) : ∀ ps : List (ℤ × ℚ),
    ((ps.flatMap fun p =>
        [({ isOn := true, note := p.1, time := 0 } : AudioProcessor.NoteMsg),
         { isOn := false, note := p.1, time := pyint (p.2 * t) }]).map
      fun m => m.note) = ps.flatMap fun p => [p.1, p.1] := by
  intro ps
  induction ps with
  | nil => rfl
  | cons p rest ih => simp [ih]

/-- The zipped pitch stream is the pitch prefix, duplicated. -/
theorem zip_flatMap_fst (l1 : List ℤ) : ∀ l2 : List ℚ,
    ((l1.zip l2).flatMap fun p => ([p.1, p.1] : List ℤ)) =
      (l1.take (min l1.length l2.length)).flatMap fun n => [n, n] := by
  induction l1 with
  | nil => intro l2; simp
  | cons x xs ih =>
    intro l2
    cases l2 with
    | nil => simp
    | cons y ys =>
      simp only [List.length_cons, Nat.succ_min_succ, List.take_succ_cons,
        List.zip_cons_cons, List.flatMap_cons, ih ys]

/-- Each zipped pair emits exactly two messages. -/
theorem flatMap_pair_length (t : ℚ) : ∀ ps : List (ℤ × ℚ),
    (ps.flatMap fun p =>
        [({ isOn := true, note := p.1, time := 0 } : AudioProcessor.NoteMsg),
         { isOn := false, note := p.1, time := pyint (p.2 * t) }]).length =
      2 * ps.length := by
  intro ps
  induction ps with
  | nil => rfl
  | cons p rest ih =>
    simp only [List.flatMap_cons, List.length_append, List.length_cons,
      List.length_nil, ih]
    omega

/-- C6 (amended): the melody-to-MIDI conversion truncates mismatched
note/duration lists to the shorter length (via `zip`) and never raises on
the mismatch, but it performs no pitch clamping and no skipping: every
zipped pitch is emitted verbatim (twice, as note-on and note-off), even when
out of `[0, 127]` or paired with a non-positive duration. -/
theorem c6_midi_truncates_but_never_clamps (notes : List ℤ) (durations : List ℚ)
    (tempo : ℚ) :
    AudioProcessor.melodyToMidiEvents notes durations tempo =
        AudioProcessor.melodyToMidiEvents
          (notes.take (min notes.length durations.length))
          (durations.take (min notes.length durations.length)) tempo ∧
      ((AudioProcessor.melodyToMidiEvents notes durations tempo).map fun m => m.note) =
        ((notes.take (min notes.length durations.length)).flatMap fun n => [n, n]) ∧
      (AudioProcessor.melodyToMidiEvents notes durations tempo).length =
        2 * min notes.length durations.length := by
  refine ⟨?_, ?_, ?_⟩
  · simp only [AudioProcessor.melodyToMidiEvents]
    rw [zip_take_min]
  · simp only [AudioProcessor.melodyToMidiEvents]
    rw [map_note_flatMap, zip_flatMap_fst]
  · simp only [AudioProcessor.melodyToMidiEvents]
    rw [flatMap_pair_length, List.length_zip]

/-- C6 counterexample: with `notes = [200, 60]` and `durations = [1, -1]`,
the conversion emits pitch 200 unclamped (note-on and note-off) and still
emits events for the note with the non-positive duration, refuting both the
clamping and the skipping halves of the claim. -/
theorem c6_counterexample_unclamped_pitch :
    ((AudioProcessor.melodyToMidiEvents [200, 60] [1, -1] 120).map fun m => m.note) =
      [200, 200, 60, 60] := by
  decide

namespace BeatGenerator

/-- With zero bars, `generate` returns a well-formed empty grid: 9 rows of
zero steps, with no validation failure on either path. -/
theorem generate_zero_bars (genre : String) (tempo complexity : ℚ)
    (reference : Option Reference) (r : Rand) :
    (generate genre tempo 0 complexity reference r).length = 9 ∧
      ∀ row ∈ generate genre tempo 0 complexity reference r, row = [] := by
  have hgrid : ∀ f : Nat → Nat → ℚ, (mkGrid 9 (16 * 0) f).length = 9 ∧
      ∀ row ∈ mkGrid 9 (16 * 0) f, row = [] := by
    intro f
    refine ⟨by simp [mkGrid], ?_⟩
    intro row hrow
    simp only [mkGrid, List.mem_map] at hrow
    obtain ⟨i, _, rfl⟩ := hrow
    rfl
  simp only [generate]
  cases genre_patterns (adjustedGenre genre reference) with
  | some pats =>
    dsimp only
    by_cases hc : adjustedComplexity complexity reference > 1/2
    · rw [if_pos hc]; exact hgrid _
    · rw [if_neg hc]; exact hgrid _
  | none =>
    dsimp only
    by_cases hc : adjustedComplexity complexity reference > 1/2
    · rw [if_pos hc]; exact hgrid _
    · rw [if_neg hc]; exact hgrid _

end BeatGenerator

/-- C7 (amended): there is no InvalidInput validation.
`BeatGenerator.generate` with `bars = 0` succeeds and returns a well-formed
degenerate `(9, 0)` grid for every genre, complexity, reference and random
stream; and the render timing computation of `pattern_to_audio` fails with
an (unhandled) `ZeroDivisionError` at `tempo = 0`, before the audio buffer
is created, rather than with a designed InvalidInput error. -/
theorem c7_no_invalid_input_validation :
    (∀ (genre : String) (tempo complexity : ℚ) (reference : Option Reference)
        (r : BeatGenerator.Rand),
      (BeatGenerator.generate genre tempo 0 complexity reference r).length = 9 ∧
        ∀ row ∈ BeatGenerator.generate genre tempo 0 complexity reference r, row = []) ∧
      ∀ numSteps : Nat,
        AudioProcessor.patternToAudioSetup numSteps 0 = .error "ZeroDivisionError" := by
  constructor
  · intro genre tempo complexity reference r
    exact BeatGenerator.generate_zero_bars genre tempo complexity reference r
  · intro numSteps
    simp [AudioProcessor.patternToAudioSetup]

/-- C7 counterexample: `generate("hip-hop", tempo=120, bars=0)` does not
fail fast with an InvalidInput error — it returns the well-formed empty
pattern grid of shape `(9, 0)`. -/
theorem c7_counterexample_bars_zero_returns_grid :
    BeatGenerator.generate "hip-hop" 120 0 (7/10) none cRand =
      List.replicate 9 ([] : List ℚ) := by
  have h := BeatGenerator.generate_zero_bars "hip-hop" 120 (7/10) none cRand
  rw [List.eq_replicate_iff]
  exact ⟨h.1, h.2⟩

namespace AudioCombiner

/-- Loop-extension reaches the target length exactly. -/
theorem loop_audio_length (audio : List ℚ) (target : Nat) (h : audio ≠ []) :
    (loop_audio audio target).length = target := by
  have hpos : 0 < audio.length := List.length_pos.mpr h
  unfold loop_audio
  split_ifs with hle
  · simp [List.length_take, Nat.min_eq_left hle]
  · simp only [List.length_append, List.length_flatten, List.map_replicate,
      List.length_take, List.sum_replicate, smul_eq_mul]
    have hmod : target % audio.length < audio.length := Nat.mod_lt _ hpos
    rw [Nat.min_eq_left (le_of_lt hmod)]
    have hdm := Nat.div_add_mod target audio.length
    have hcomm : audio.length * (target / audio.length) =
        target / audio.length * audio.length := Nat.mul_comm _ _
    omega

/-- Indexing into whole tiled copies wraps modulo the tile length. -/
theorem flatten_replicate_getD (a : List ℚ) (ha : a ≠ []) :
    ∀ (k i : Nat), i < k * a.length →
      ((List.replicate k a).flatten).getD i 0 = a.getD (i % a.length) 0 := by
  have hpos : 0 < a.length := List.length_pos.mpr ha
  intro k
  induction k with
  | zero => intro i h; omega
  | succ n ih =>
    intro i h
    rw [Nat.succ_mul] at h
    rw [List.replicate_succ, List.flatten_cons]
    by_cases hi : i < a.length
    · rw [List.getD_append _ _ _ _ hi, Nat.mod_eq_of_lt hi]
    · have hge : a.length ≤ i := not_lt.mp hi
      rw [List.getD_append_right _ _ _ _ hge]
      rw [ih (i - a.length) (by omega)]
      rw [Nat.mod_eq_sub_mod hge]

/-- Loop-extension tiles the source: sample `i` of the looped track is
sample `i mod len` of the source. -/
theorem loop_audio_getD (audio : List ℚ) (target : Nat) (h : audio ≠ [])
    (hlt : audio.length < target) :
    ∀ i < target, (loop_audio audio target).getD i 0 =
      audio.getD (i % audio.length) 0 := by
  have hpos : 0 < audio.length := List.length_pos.mpr h
  intro i hi
  unfold loop_audio
  rw [if_neg (by omega)]
  have hflatlen : ((List.replicate (target / audio.length) audio).flatten).length =
      (target / audio.length) * audio.length := by
    simp [List.length_flatten, List.map_replicate, List.sum_replicate, smul_eq_mul]
  by_cases hin : i < (target / audio.length) * audio.length
  · rw [List.getD_append _ _ _ _ (by rw [hflatlen]; exact hin)]
    exact flatten_replicate_getD audio h _ i hin
  · have hge : (target / audio.length) * audio.length ≤ i := not_lt.mp hin
    rw [List.getD_append_right _ _ _ _ (by rw [hflatlen]; exact hge)]
    rw [hflatlen]
    have hdm := Nat.div_add_mod target audio.length
    have hcomm : audio.length * (target / audio.length) =
        target / audio.length * audio.length := Nat.mul_comm _ _
    have hd : i - target / audio.length * audio.length < target % audio.length := by
      omega
    have hdlen : i - target / audio.length * audio.length < audio.length :=
      lt_of_lt_of_le hd (le_of_lt (Nat.mod_lt _ hpos))
    have htakelen : (audio.take (target % audio.length)).length =
        target % audio.length := by
      simp [List.length_take, Nat.min_eq_left (le_of_lt (Nat.mod_lt _ hpos))]
    have hmodeq : i % audio.length = i - target / audio.length * audio.length := by
      conv_lhs => rw [show i = target / audio.length * audio.length +
        (i - target / audio.length * audio.length) by omega]
      rw [Nat.add_comm, Nat.add_mul_mod_self_right]
      exact Nat.mod_eq_of_lt hdlen
    rw [List.getD_eq_getElem _ _ (by rw [htakelen]; exact hd)]
    rw [List.getElem_take]
    rw [hmodeq]
    rw [List.getD_eq_getElem _ _ hdlen]

/-- `normalizeTo` preserves length. -/
theorem normalizeTo_length (t : ℚ) (l : List ℚ) :
    (normalizeTo t l).length = l.length := by
  unfold normalizeTo
  split_ifs <;> simp

/-- After normalization to a nonnegative target, every sample is bounded by
the target in absolute value. -/
theorem normalizeTo_bounded (t : ℚ) (ht : 0 ≤ t) (l : List ℚ) :
    ∀ x ∈ normalizeTo t l, |x| ≤ t := by
  intro x hx
  unfold normalizeTo at hx
  split_ifs at hx with hp
  · obtain ⟨y, hy, rfl⟩ := List.mem_map.mp hx
    have hyp : |y| ≤ listPeak l := abs_le_listPeak l y hy
    have hppos : 0 < listPeak l := hp
    rw [abs_mul, abs_div, abs_of_pos hppos, abs_of_nonneg ht]
    have hdiv : |y| / listPeak l ≤ 1 := (div_le_one hppos).mpr hyp
    calc |y| / listPeak l * t ≤ 1 * t := mul_le_mul_of_nonneg_right hdiv ht
      _ = t := one_mul t
  · have hp0 : listPeak l = 0 := le_antisymm (not_lt.mp hp) (listPeak_nonneg l)
    have := abs_le_listPeak l x hx
    rw [hp0] at this
    linarith

end AudioCombiner

/-- C8: `combine` reconciles lengths by looping the shorter track (tiling
plus partial tail) up to the longer track's exact length — never truncating
the longer track, which enters the mix unchanged — and after gain
application and summation the output is peak-normalized so that every
sample's absolute value is at most 0.9, for any mix levels and any
non-silent inputs. -/
theorem c8_combine_loops_and_normalizes (beat melody : List ℚ) (lb lm : ℚ)
    (hb : beat ≠ []) (hm : melody ≠ []) :
    (AudioCombiner.combine beat melody lb lm).length = max beat.length melody.length ∧
      (∀ x ∈ AudioCombiner.combine beat melody lb lm, |x| ≤ 9/10) ∧
      (∀ (audio : List ℚ) (target : Nat), audio ≠ [] → audio.length < target →
        (AudioCombiner.loop_audio audio target).length = target ∧
          ∀ i < target, (AudioCombiner.loop_audio audio target).getD i 0 =
            audio.getD (i % audio.length) 0) ∧
      (melody.length ≤ beat.length →
        AudioCombiner.combine beat melody lb lm =
          AudioCombiner.normalizeTo (9/10)
            (List.zipWith (fun x y => x * lb + y * lm) beat
              (if melody.length < beat.length then
                AudioCombiner.loop_audio melody beat.length
              else melody))) := by
  have hblen : (if beat.length < max beat.length melody.length then
      AudioCombiner.loop_audio beat (max beat.length melody.length) else beat).length =
      max beat.length melody.length := by
    split_ifs with hcase
    · exact AudioCombiner.loop_audio_length beat _ hb
    · omega
  have hmlen : (if melody.length < max beat.length melody.length then
      AudioCombiner.loop_audio melody (max beat.length melody.length) else melody).length =
      max beat.length melody.length := by
    split_ifs with hcase
    · exact AudioCombiner.loop_audio_length melody _ hm
    · omega
  refine ⟨?_, ?_, ?_, ?_⟩
  · simp only [AudioCombiner.combine, AudioCombiner.normalizeTo_length,
      List.length_zipWith, hblen, hmlen, Nat.min_self]
  · intro x hx
    simp only [AudioCombiner.combine] at hx
    exact AudioCombiner.normalizeTo_bounded (9/10) (by norm_num) _ x hx
  · intro audio target ha hlt
    exact ⟨AudioCombiner.loop_audio_length audio target ha,
      AudioCombiner.loop_audio_getD audio target ha hlt⟩
  · intro hle
    simp only [AudioCombiner.combine]
    have hmaxb : max beat.length melody.length = beat.length := max_eq_left hle
    rw [hmaxb]
    rw [if_neg (lt_irrefl beat.length)]

/-- Witness for C8 at `beat = [1]`, `melody = [1/2, 1/2]` with mix levels
0.7 / 0.8. -/
theorem c8_combine_loops_and_normalizes_witness :
    ([1] : List ℚ) ≠ [] ∧ ([1/2, 1/2] : List ℚ) ≠ [] ∧
      ((AudioCombiner.combine [1] [1/2, 1/2] (7/10) (8/10)).length =
          max ([1] : List ℚ).length ([1/2, 1/2] : List ℚ).length ∧
        ∀ x ∈ AudioCombiner.combine [1] [1/2, 1/2] (7/10) (8/10), |x| ≤ 9/10) :=
  ⟨by simp, by simp,
    (c8_combine_loops_and_normalizes [1] [1/2, 1/2] (7/10) (8/10) (by simp) (by simp)).1,
    fun x hx =>
      (c8_combine_loops_and_normalizes [1] [1/2, 1/2] (7/10) (8/10) (by simp)
        (by simp)).2.1 x hx⟩

theorem getD_mapIdx {α β : Type} (l : List α) (f : Nat → α → β) (j : Nat)
    (hj : j < l.length) (d : β) (d' : α) :
    (l.mapIdx f).getD j d = f j (l.getD j d') := by
  rw [List.getD_eq_getElem _ _ (by rw [List.length_mapIdx]; exact hj),
    List.getElem_mapIdx, List.getD_eq_getElem _ _ hj]

/-- C9: every arrangement variation keeps all song-level fields and all
section fields except the beat pattern identical to the base song (which,
the embedding being pure, is itself never modified); only `style` and
`variation_id` are re-tagged, and each section's beat pattern is regenerated
with the fixed style → complexity table (default 0.6). -/
theorem c9_variations_regenerate_only_beat (baseSong : WholeSongGenerator.Song)
    (num : Nat) (r : Nat → Nat → BeatGenerator.Rand) :
    ∀ v ∈ WholeSongGenerator.generate_arrangement_variations baseSong num r,
      v.tempo = baseSong.tempo ∧ v.key = baseSong.key ∧
        v.struct = baseSong.struct ∧
        v.total_duration = baseSong.total_duration ∧
        v.chord_progression = baseSong.chord_progression ∧
        v.sections.length = baseSong.sections.length ∧
        ∃ i < min num (WholeSongGenerator.style_variations baseSong.style).length,
          v.style = (WholeSongGenerator.style_variations baseSong.style).getD i "" ∧
            v.variation_id = some (i + 1) ∧
            ∀ j, j < baseSong.sections.length →
              (v.sections.getD j wSection).melody =
                  (baseSong.sections.getD j wSection).melody ∧
                (v.sections.getD j wSection).chords =
                  (baseSong.sections.getD j wSection).chords ∧
                (v.sections.getD j wSection).type =
                  (baseSong.sections.getD j wSection).type ∧
                (v.sections.getD j wSection).start_time =
                  (baseSong.sections.getD j wSection).start_time ∧
                (v.sections.getD j wSection).duration =
                  (baseSong.sections.getD j wSection).duration ∧
                (v.sections.getD j wSection).energy =
                  (baseSong.sections.getD j wSection).energy ∧
                (v.sections.getD j wSection).bars =
                  (baseSong.sections.getD j wSection).bars ∧
                (v.sections.getD j wSection).beat_pattern =
                  BeatGenerator.generate
                    (if (WholeSongGenerator.style_variations baseSong.style).getD i "" = "rock" ∨
                        (WholeSongGenerator.style_variations baseSong.style).getD i "" = "jazz" ∨
                        (WholeSongGenerator.style_variations baseSong.style).getD i "" = "electronic"
                      then (WholeSongGenerator.style_variations baseSong.style).getD i ""
                      else baseSong.style)
                    baseSong.tempo (baseSong.sections.getD j wSection).bars
                    (WholeSongGenerator.get_style_complexity
                      ((WholeSongGenerator.style_variations baseSong.style).getD i "")) none
                    (r i j) := by
  intro v hv
  simp only [WholeSongGenerator.generate_arrangement_variations, List.mem_map] at hv
  obtain ⟨i, hi, rfl⟩ := hv
  rw [List.mem_range] at hi
  refine ⟨rfl, rfl, rfl, rfl, rfl, List.length_mapIdx, i, hi, rfl, rfl, ?_⟩
  intro j hj
  dsimp only
  rw [getD_mapIdx baseSong.sections _ j hj wSection wSection]
  exact ⟨rfl, rfl, rfl, rfl, rfl, rfl, rfl, rfl⟩

/-- Witness for C9: the first variation of the one-section pop witness song
keeps the song tempo and the section count. -/
theorem c9_variations_regenerate_only_beat_witness :
    wVariation ∈ WholeSongGenerator.generate_arrangement_variations wSong 1
        (fun _ _ => cRand) ∧
      wVariation.tempo = wSong.tempo ∧
        wVariation.sections.length = wSong.sections.length := by
  have hne : WholeSongGenerator.generate_arrangement_variations wSong 1
      (fun _ _ => cRand) ≠ [] := by
    apply List.ne_nil_of_length_pos
    simp [WholeSongGenerator.generate_arrangement_variations, wSong,
      WholeSongGenerator.style_variations]
  have hmem : wVariation ∈ WholeSongGenerator.generate_arrangement_variations wSong 1
      (fun _ _ => cRand) := getD_zero_mem _ _ hne
  have h := c9_variations_regenerate_only_beat wSong 1 (fun _ _ => cRand) wVariation hmem
  exact ⟨hmem, h.1, h.2.2.2.2.2.1⟩

/-- C10: with an empty track list and no explicit levels,
`mix_multiple_tracks` hits `ZeroDivisionError` computing the default level
`1 / len(track_paths)` — before any track loading and before the documented
"No valid tracks found" check, whatever the filesystem holds; and for a
non-empty list the default per-track level is `1 / len(track_paths)`
computed over the supplied paths, regardless of which tracks actually
load. -/
theorem c10_mix_default_levels (fs : String → Option (List ℚ)) :
    AudioCombiner.mix_multiple_tracks fs [] none = .error "ZeroDivisionError" ∧
      ∀ track_paths : List String, track_paths ≠ [] →
        AudioCombiner.mix_multiple_tracks fs track_paths none =
          AudioCombiner.mix_multiple_tracks fs track_paths
            (some (List.replicate track_paths.length
              (1 / (track_paths.length : ℚ)))) := by
  constructor
  · rfl
  · intro track_paths hne
    have hlen : track_paths.length ≠ 0 := by
      simpa [List.length_eq_zero] using hne
    simp [AudioCombiner.mix_multiple_tracks, pydivByNat, hlen, Bind.bind, Except.bind]

/-- Witness for C10: one supplied path that fails to load still gets the
default level computed over the supplied paths. -/
theorem c10_mix_default_levels_witness :
    (["beat.wav"] : List String) ≠ [] ∧
      AudioCombiner.mix_multiple_tracks (fun _ => none) ["beat.wav"] none =
        AudioCombiner.mix_multiple_tracks (fun _ => none) ["beat.wav"]
          (some (List.replicate (["beat.wav"] : List String).length
            (1 / ((["beat.wav"] : List String).length : ℚ)))) :=
  ⟨by simp,
    (c10_mix_default_levels (fun _ => none)).2 ["beat.wav"] (by simp)⟩
